import Mathlib

/-!
Verification of the commit batcher (`extern/storage-sealing/commit_batch.go`).

Shallow embedding conventions:
* Go maps are association lists `List (Nat × α)` in (arbitrary) iteration
  order; a missing key yields the Go zero value (`lookupD`), insertion
  overwrites (`insertA`), `delete` removes the key (`delA`).
* `time.Time` and `time.Duration` are integers counting nanoseconds; the Go
  zero time is `0` (`IsZero` is `= 0`), `time.Nanosecond` is `1`.
* `abi.ChainEpoch`, token amounts (`big.Int`) are `Int`; sector numbers,
  CIDs, addresses, network versions, proof types are `Nat` (opaque ids).
* Functions returning `(T, error)` become `GoRes T` (`ok`/`error`), with a
  third constructor `panic` for Go runtime panics (nil-map assignment,
  nil-pointer dereference, double channel close, index out of range).
* External collaborators (chain node API, address selector, prover, fee and
  policy functions, CBOR marshalling) are parameters bundled in
  `BatcherEnv`, mirroring the `CommitBatcherApi` interface.
-/

namespace Sealing

/-- Go result for code that can also panic at runtime. -/
inductive GoRes (α : Type) where
  | ok (a : α)
  | error (msg : String)
  | panic (msg : String)
deriving Repr, DecidableEq

/-- Result of code whose Go errors are returned as values alongside partial
results, so that the only exceptional outcome is a runtime panic. -/
inductive PanicOr (α : Type) where
  | panic (msg : String)
  | ret (a : α)
deriving Repr, DecidableEq

/-- Association-list lookup with a default, modelling Go map indexing, which
yields the zero value for a missing key. -/
def lookupD {α : Type} (l : List (Nat × α)) (k : Nat) (d : α) : α :=
  match l with
  | [] => d
  | (k', v) :: t => if k' = k then v else lookupD t k d

/-- Association-list insertion, modelling Go map assignment `m[k] = v`. -/
def insertA {α : Type} (l : List (Nat × α)) (k : Nat) (v : α) : List (Nat × α) :=
  match l with
  | [] => [(k, v)]
  | (k', v') :: t => if k' = k then (k, v) :: t else (k', v') :: insertA t k v

/-- Association-list removal, modelling Go `delete(m, k)`. -/
def delA {α : Type} (l : List (Nat × α)) (k : Nat) : List (Nat × α) :=
  l.filter (fun p => decide (p.1 ≠ k))

/-- `proof5.AggregateSealVerifyInfo`: public verification inputs of one
sector (only the fields the batcher reads are modelled). -/
structure AggregateSealVerifyInfo where
  Number : Nat
  SealedCID : Nat
  UnsealedCID : Nat
deriving Repr, DecidableEq

/-- `AggregateInput`: one sector offered for commit. -/
structure AggregateInput where
  spt : Nat
  info : AggregateSealVerifyInfo
  proof : List Nat
deriving Repr, DecidableEq

/-- Go zero value of `AggregateInput` (what indexing a map at a missing key
returns). -/
def defaultAggregateInput : AggregateInput :=
  { spt := 0, info := { Number := 0, SealedCID := 0, UnsealedCID := 0 }, proof := [] }

/-- `sealiface.CommitBatchRes`.  `FailedSectors` is `none` while the map is
Go-`nil` (it is never initialised by the batcher), `some m` once non-nil. -/
structure CommitBatchRes where
  Sectors : List Nat
  FailedSectors : Option (List (Nat × String))
  Msg : Option Nat
  Error : String
deriving Repr, DecidableEq

/-- The subset of `sealiface.Config` the commit batcher reads.  Durations
are nanoseconds. -/
structure Config where
  MaxCommitBatch : Nat
  MinCommitBatch : Nat
  CommitBatchWait : Int
  CommitBatchSlack : Int
deriving Repr, DecidableEq

/-- The three maps of `CommitBatcher` guarded by its mutex.  `waiting`
records the number of registered listener channels per sector. -/
structure BatcherState where
  cutoffs : List (Nat × Int)
  todo : List (Nat × AggregateInput)
  waiting : List (Nat × Nat)
deriving Repr, DecidableEq

def emptyBatcherState : BatcherState := { cutoffs := [], todo := [], waiting := [] }

/-- `miner.SectorPreCommitOnChainInfo` (fields the batcher reads; `Info` is
the opaque embedded `SectorPreCommitInfo`). -/
structure SectorPreCommitOnChainInfo where
  Info : Nat
  PreCommitDeposit : Int
  PreCommitEpoch : Int
deriving Repr, DecidableEq

/-- Deal schedule of a piece (`DealSchedule.StartEpoch`). -/
structure DealSched where
  StartEpoch : Int
deriving Repr, DecidableEq

/-- `api.PieceDealInfo` as read by the batcher. -/
structure PieceDealInfo where
  DealSchedule : DealSched
deriving Repr, DecidableEq

/-- One piece of a sector; `DealInfo` is `nil`-able. -/
structure SectorPiece where
  DealInfo : Option PieceDealInfo
deriving Repr, DecidableEq

/-- The part of `SectorInfo` that `getCommitCutoff` reads. -/
structure SectorInfo where
  SectorNumber : Nat
  SectorType : Nat
  Pieces : List SectorPiece
deriving Repr, DecidableEq

/-- External collaborators of the batcher, mirroring `CommitBatcherApi`,
the address selector, the prover, fee config and policy functions.  Each
field is the outcome (or outcome function) of the corresponding external
call at the relevant tipset. -/
structure BatcherEnv where
  chainHead : Except String Int
  pciOf : Nat → Except String (Option SectorPreCommitOnChainInfo)
  pledge : Nat → Except String Int
  stateMinerInfo : Except String Nat
  chainBaseFee : Except String Int
  stateNetworkVersion : Except String Nat
  idFromAddress : Except String Nat
  aggregateSealProofs : Nat → Nat → List AggregateSealVerifyInfo → List (List Nat) →
    Except String (List Nat)
  marshalAgg : List Nat → List Nat → Except String (List Nat)
  marshalSingle : Nat → List Nat → Except String (List Nat)
  feeForSectors : Nat → Int
  aggregateNetworkFee : Nat → Nat → Int → Int
  maxCommitGasFee : Int
  addrSel : Nat → Int → Int → Except String Nat
  sendMsg : Nat → Int → Int → List Nat → Except String Nat

/-- `getSectorCollateral` (commit_batch.go:516-536): read the pre-commit
record, fail if it is absent, and clamp initial pledge minus deposit at
zero. -/
def getSectorCollateral (pciRes : Except String (Option SectorPreCommitOnChainInfo))
    (pledge : Nat → Except String Int) : Except String Int :=
  match pciRes with
  | .error e => .error ("getting precommit info: " ++ e)
  | .ok none => .error "precommit info not found on chain"
  | .ok (some pci) =>
    match pledge pci.Info with
    | .error e => .error ("getting initial pledge collateral: " ++ e)
    | .ok collateral =>
      let c := collateral - pci.PreCommitDeposit
      .ok (if c < 0 then 0 else c)

/-- `b.getSectorCollateral(sn, tok)` with the chain queries supplied by the
environment. -/
def envGetColl (env : BatcherEnv) (sn : Nat) : Except String Int :=
  getSectorCollateral (env.pciOf sn) env.pledge

/-- `getCommitCutoff` (commit_batch.go:478-514).  `versionForNetwork` and
`maxProveCommitDuration` stand for `actors.VersionForNetwork` and
`policy.GetMaxProveCommitDuration`; `blockDelaySecs` is
`build.BlockDelaySecs`; `now` is the current instant in nanoseconds.
Unlike `getSectorCollateral`, the code dereferences the possibly-nil
pre-commit record without a check, which is a runtime panic when the chain
node returns `(nil, nil)`. -/
def getCommitCutoff (chainHead : Except String Int) (nvRes : Except String Nat)
    (pciRes : Except String (Option SectorPreCommitOnChainInfo))
    (versionForNetwork : Nat → Nat) (maxProveCommitDuration : Nat → Nat → Int)
    (blockDelaySecs : Int) (now : Int) (si : SectorInfo) : GoRes Int :=
  match chainHead with
  | .error e => .error ("getting chain head: " ++ e)
  | .ok curEpoch =>
    match nvRes with
    | .error e => .error ("getting network version: " ++ e)
    | .ok nv =>
      match pciRes with
      | .error e => .error e
      | .ok none => .panic "invalid memory address or nil pointer dereference"
      | .ok (some pci) =>
        let base := pci.PreCommitEpoch + maxProveCommitDuration (versionForNetwork nv) si.SectorType
        let cutoffEpoch := si.Pieces.foldl
          (fun ce p =>
            match p.DealInfo with
            | none => ce
            | some d =>
              if d.DealSchedule.StartEpoch < ce then d.DealSchedule.StartEpoch else ce)
          base
        if cutoffEpoch ≤ curEpoch then .ok now
        else .ok (now + (cutoffEpoch - curEpoch) * blockDelaySecs * 1000000000)

/-- The state mutation of `AddCommit` (commit_batch.go:402-413): set the
cutoff, overwrite the pending input, and register one more listener. -/
def addCommitRegister (st : BatcherState) (sn : Nat) (cu : Int) (inp : AggregateInput) :
    BatcherState :=
  { cutoffs := insertA st.cutoffs sn cu
    todo := insertA st.todo sn inp
    waiting := insertA st.waiting sn (lookupD st.waiting sn 0 + 1) }

/-- `AddCommit` (commit_batch.go:394-421) up to the point where the caller
starts waiting on its listener channel: compute the cutoff, then mutate the
state under the lock. -/
def addCommit (chainHead : Except String Int) (nvRes : Except String Nat)
    (pciRes : Except String (Option SectorPreCommitOnChainInfo))
    (versionForNetwork : Nat → Nat) (maxProveCommitDuration : Nat → Nat → Int)
    (blockDelaySecs : Int) (now : Int) (st : BatcherState) (si : SectorInfo)
    (inp : AggregateInput) : GoRes BatcherState :=
  match getCommitCutoff chainHead nvRes pciRes versionForNetwork maxProveCommitDuration
      blockDelaySecs now si with
  | .error e => .error e
  | .panic m => .panic m
  | .ok cu => .ok (addCommitRegister st si.SectorNumber cu inp)

/-- Accumulator of the selection loop of `processBatch`
(commit_batch.go:233-261): `sectors` is `res.Sectors`, `failedSectors` is
`res.FailedSectors` (`none` = Go nil map), `bitfield` is
`params.SectorNumbers`, `infos` and `collateral` the running vectors. -/
structure SelectAcc where
  sectors : List Nat
  failedSectors : Option (List (Nat × String))
  bitfield : List Nat
  infos : List AggregateSealVerifyInfo
  collateral : Int
deriving Repr, DecidableEq

/-- Initial accumulator: `var res sealiface.CommitBatchRes` leaves
`FailedSectors` as a nil map; `bitfield.New()` is empty. -/
def initSelectAcc : SelectAcc :=
  { sectors := [], failedSectors := none, bitfield := [], infos := [], collateral := 0 }

/-- `params.SectorNumbers.Set(uint64(id))`: bitfields are sets. -/
def bitfieldSet (bf : List Nat) (n : Nat) : List Nat :=
  if n ∈ bf then bf else bf ++ [n]

/-- The `for id, p := range b.todo` loop of `processBatch`
(commit_batch.go:243-261), with the map presented in its iteration order.
Break once `len(infos) >= cfg.MaxCommitBatch`; always append the sector to
`res.Sectors`; on collateral failure write into `res.FailedSectors`, which
panics while that map is nil, otherwise accumulate. -/
def selectLoop (getColl : Nat → Except String Int) (maxB : Nat) :
    List (Nat × AggregateInput) → SelectAcc → PanicOr SelectAcc
  | [], acc => .ret acc
  | (id, p) :: rest, acc =>
    if maxB ≤ acc.infos.length then .ret acc
    else
      match getColl id, acc.failedSectors with
      | .error _e, none => .panic "assignment to entry in nil map"
      | .error e, some m =>
        selectLoop getColl maxB rest
          { acc with
            sectors := acc.sectors ++ [id]
            failedSectors := some (insertA m id e) }
      | .ok sc, _ =>
        selectLoop getColl maxB rest
          { acc with
            sectors := acc.sectors ++ [id]
            collateral := acc.collateral + sc
            bitfield := bitfieldSet acc.bitfield id
            infos := acc.infos ++ [p.info] }

/-- Ordered insertion by ascending sector number. -/
def insertSorted (i : AggregateSealVerifyInfo) :
    List AggregateSealVerifyInfo → List AggregateSealVerifyInfo
  | [] => [i]
  | j :: t => if i.Number ≤ j.Number then i :: j :: t else j :: insertSorted i t

/-- `sort.Slice(infos, ...Number < ...Number)` (commit_batch.go:263-265),
modelled as insertion sort by ascending sector number. -/
def sortInfos : List AggregateSealVerifyInfo → List AggregateSealVerifyInfo
  | [] => []
  | i :: t => insertSorted i (sortInfos t)

/-- Reassembly of the proof vector in sorted order
(commit_batch.go:267-269): `proofs = append(proofs, b.todo[info.Number].proof)`
over the sorted infos; a missing key yields the Go zero value. -/
def proofsFor (todo : List (Nat × AggregateInput))
    (infos : List AggregateSealVerifyInfo) : List (List Nat) :=
  infos.map (fun i => (lookupD todo i.Number defaultAggregateInput).proof)

/-- `processBatch` (commit_batch.go:225-328), the aggregate path.  Returns
the Go pair `(res, err)` unless a runtime panic occurs.  `infos[0]` on an
empty slice is an index-out-of-range panic. -/
def processBatch (env : BatcherEnv) (cfg : Config) (todo : List (Nat × AggregateInput)) :
    PanicOr (List CommitBatchRes × Option String) :=
  match env.chainHead with
  | .error e => .ret ([], some e)
  | .ok _tokEpoch =>
    match selectLoop (envGetColl env) cfg.MaxCommitBatch todo initSelectAcc with
    | .panic m => .panic m
    | .ret ls =>
      let res : CommitBatchRes :=
        { Sectors := ls.sectors, FailedSectors := ls.failedSectors, Msg := none, Error := "" }
      let infos1 := sortInfos ls.infos
      let proofs := proofsFor todo infos1
      match env.idFromAddress with
      | .error e => .ret ([res], some ("getting miner id: " ++ e))
      | .ok mid =>
        match infos1 with
        | [] => .panic "index out of range"
        | i0 :: _ =>
          let spt := (lookupD todo i0.Number defaultAggregateInput).spt
          match env.aggregateSealProofs mid spt infos1 proofs with
          | .error e => .ret ([res], some ("aggregating proofs: " ++ e))
          | .ok aggProof =>
            match env.marshalAgg ls.bitfield aggProof with
            | .error e =>
              .ret ([res], some ("could not serialize ProveCommitAggregateParams: " ++ e))
            | .ok enc =>
              match env.stateMinerInfo with
              | .error e => .ret ([res], some ("could not get miner info: " ++ e))
              | .ok mi =>
                let maxFee := env.feeForSectors infos1.length
                match env.chainBaseFee with
                | .error e => .ret ([res], some ("could not get base fee: " ++ e))
                | .ok bf =>
                  match env.stateNetworkVersion with
                  | .error e => .ret ([res], some ("getting network version: " ++ e))
                  | .ok nv =>
                    let aggFee := env.aggregateNetworkFee nv infos1.length bf
                    let goodFunds := maxFee + (ls.collateral + aggFee)
                    match env.addrSel mi goodFunds ls.collateral with
                    | .error e => .ret ([res], some ("no good address found: " ++ e))
                    | .ok fromAddr =>
                      match env.sendMsg fromAddr ls.collateral maxFee enc with
                      | .error e => .ret ([res], some ("sending message failed: " ++ e))
                      | .ok mcid => .ret ([{ res with Msg := some mcid }], none)

/-- `processSingle` (commit_batch.go:362-391). -/
def processSingle (env : BatcherEnv) (mi : Nat) (sn : Nat) (inp : AggregateInput) :
    Except String Nat :=
  match env.marshalSingle sn inp.proof with
  | .error e => .error ("marshaling commit params: " ++ e)
  | .ok enc =>
    match getSectorCollateral (env.pciOf sn) env.pledge with
    | .error e => .error e
    | .ok collateral =>
      let goodFunds := collateral + env.maxCommitGasFee
      match env.addrSel mi goodFunds collateral with
      | .error e => .error ("no good address to send commit message from: " ++ e)
      | .ok fromAddr =>
        match env.sendMsg fromAddr collateral env.maxCommitGasFee enc with
        | .error e => .error ("pushing message to mpool: " ++ e)
        | .ok mcid => .ok mcid

/-- The per-sector loop of `processIndividually` (commit_batch.go:343-357).
Each iteration builds `r` with `Sectors = [sn]` and a nil `FailedSectors`
map, so a `processSingle` failure is again a nil-map assignment panic. -/
def processIndividuallyGo (env : BatcherEnv) (mi : Nat) :
    List (Nat × AggregateInput) → List CommitBatchRes →
    PanicOr (List CommitBatchRes × Option String)
  | [], acc => .ret (acc, none)
  | (sn, inp) :: rest, acc =>
    match processSingle env mi sn inp with
    | .error _e => .panic "assignment to entry in nil map"
    | .ok mcid =>
      processIndividuallyGo env mi rest
        (acc ++ [{ Sectors := [sn], FailedSectors := none, Msg := some mcid, Error := "" }])

/-- `processIndividually` (commit_batch.go:330-360). -/
def processIndividually (env : BatcherEnv) (todo : List (Nat × AggregateInput)) :
    PanicOr (List CommitBatchRes × Option String) :=
  match env.stateMinerInfo with
  | .error e => .ret ([], some ("could not get miner info: " ++ e))
  | .ok mi =>
    match env.chainHead with
    | .error e => .ret ([], some e)
    | .ok _tokEpoch => processIndividuallyGo env mi todo []

/-- Erase one sector from all three maps (commit_batch.go:216-218). -/
def eraseOne (st : BatcherState) (sn : Nat) : BatcherState :=
  { cutoffs := delA st.cutoffs sn
    todo := delA st.todo sn
    waiting := delA st.waiting sn }

/-- The fan-out loop of `maybeStartBatch` (commit_batch.go:206-220): every
sector named in some result is erased from the maps (its listeners have been
served through their buffered channels). -/
def eraseSectors (st : BatcherState) (res : List CommitBatchRes) : BatcherState :=
  res.foldl (fun s r => r.Sectors.foldl eraseOne s) st

/-- Tail of `maybeStartBatch` after a path returned `(res, err)`
(commit_batch.go:202-222): a fatal error with no results is surfaced,
otherwise the named sectors are erased and `(res, nil)` returned. -/
def closeFinish (st : BatcherState) (pr : PanicOr (List CommitBatchRes × Option String)) :
    PanicOr (BatcherState × List CommitBatchRes × Option String) :=
  match pr with
  | .panic m => .panic m
  | .ret (res, err) =>
    if err.isSome = true ∧ res.length = 0 then .ret (st, [], err)
    else .ret (eraseSectors st res, res, none)

/-- `maybeStartBatch` (commit_batch.go:173-223).  `getCfg` is the outcome of
the `b.getConfig()` call made inside this function, `minAgg` stands for the
protocol constant `miner5.MinAggregatedSectors`. -/
def maybeStartBatch (env : BatcherEnv) (getCfg : Except String Config) (minAgg : Nat)
    (st : BatcherState) (notif afterFlag : Bool) :
    PanicOr (BatcherState × List CommitBatchRes × Option String) :=
  if st.todo.length = 0 then .ret (st, [], none)
  else
    match getCfg with
    | .error e => .ret (st, [], some ("getting config: " ++ e))
    | .ok cfg =>
      if notif = true ∧ st.todo.length < cfg.MaxCommitBatch then .ret (st, [], none)
      else if afterFlag = true ∧ st.todo.length < cfg.MinCommitBatch then .ret (st, [], none)
      else if st.todo.length < cfg.MinCommitBatch ∨ st.todo.length < minAgg then
        closeFinish st (processIndividually env st.todo)
      else
        closeFinish st (processBatch env cfg st.todo)

/-- One step of the cutoff scan of `batchWait` (commit_batch.go:143-154) on
values: keep the candidate when no cutoff is chosen yet (`cutoff.IsZero()`),
or when the candidate is set and earlier. -/
def cutStepV (acc s : Int) : Int :=
  if acc = 0 ∨ (s ≠ 0 ∧ s < acc) then s else acc

/-- One step of the cutoff scan over sector numbers, reading `b.cutoffs`. -/
def cutStep (cf : List (Nat × Int)) (acc : Int) (sn : Nat) : Int :=
  cutStepV acc (lookupD cf sn 0)

/-- `batchWait` (commit_batch.go:132-171).  `none` is a nil timer channel
(never fires); `some d` fires after `d` nanoseconds. -/
def batchWait (st : BatcherState) (now maxWait slack : Int) : Option Int :=
  if st.todo.length = 0 then none
  else
    let c0 := (st.todo.map Prod.fst).foldl (cutStep st.cutoffs) 0
    let c := (st.waiting.map Prod.fst).foldl (cutStep st.cutoffs) c0
    if c = 0 then some maxWait
    else
      let c2 := c - slack
      if c2 < now then some 1
      else
        let wait := c2 - now
        some (if maxWait < wait then maxWait else wait)

/-- Which `select` arm of the scheduler loop fired (commit_batch.go:112-122). -/
inductive WakeEvent where
  | stop
  | notify
  | timer
  | force
deriving Repr, DecidableEq

/-- Observable outcome of one iteration of `run` (commit_batch.go:104-129):
the timer armed for the `select` (computed by `batchWait` from the startup
configuration), whether the loop exits, and the `maybeStartBatch` call made
for the arm that fired (none for `stop`). -/
structure IterOut where
  timerDelay : Option Int
  exits : Bool
  close : Option (PanicOr (BatcherState × List CommitBatchRes × Option String))
deriving Repr, DecidableEq

/-- One iteration of the scheduler loop `run` (commit_batch.go:95-130).
`startupCfg` is the configuration loaded once before the loop (line 99) and
used only for `batchWait`; `getCfgNow` is what `b.getConfig()` returns when
`maybeStartBatch` re-reads it during this iteration. -/
def runIteration (startupCfg : Config) (getCfgNow : Except String Config) (env : BatcherEnv)
    (minAgg : Nat) (st : BatcherState) (now : Int) (ev : WakeEvent) : IterOut :=
  { timerDelay := batchWait st now startupCfg.CommitBatchWait startupCfg.CommitBatchSlack
    exits := ev = WakeEvent.stop
    close :=
      match ev with
      | .stop => none
      | .notify => some (maybeStartBatch env getCfgNow minAgg st true false)
      | .timer => some (maybeStartBatch env getCfgNow minAgg st false true)
      | .force => some (maybeStartBatch env getCfgNow minAgg st false false) }

/-- Channel state relevant to `Stop`: whether `b.stop` and `b.stopped` have
been closed. -/
structure StopState where
  stopClosed : Bool
  stoppedClosed : Bool
deriving Repr, DecidableEq

/-- The scheduler's reaction to the stop signal (commit_batch.go:113-115):
once `b.stop` is closed, `run` closes `b.stopped` and returns. -/
def schedulerAckStop (st : StopState) : StopState :=
  if st.stopClosed = true then { st with stoppedClosed := true } else st

/-- `Stop` (commit_batch.go:466-475): `close(b.stop)` panics when the
channel is already closed (Go specification: closing a closed channel is a
run-time panic); otherwise the scheduler acknowledges by closing `b.stopped`
and `Stop` returns nil (`true` = ok, the context branch is not taken while
the scheduler is live). -/
def Stop (st : StopState) : PanicOr (StopState × Bool) :=
  if st.stopClosed = true then .panic "close of closed channel"
  else
    let st1 : StopState := { stopClosed := true, stoppedClosed := st.stoppedClosed }
    let st2 := schedulerAckStop st1
    .ret (st2, true)

/-- Verification input for sector `n` with the sector number recorded in the
info, as the sealing pipeline provides it. -/
def infoOf (n : Nat) : AggregateSealVerifyInfo :=
  { Number := n, SealedCID := n, UnsealedCID := n }

/-- Aggregate input for sector `n`. -/
def inputOf (n : Nat) : AggregateInput :=
  { spt := 3, info := infoOf n, proof := [n] }

/-- An environment in which every external call succeeds. -/
def envOk : BatcherEnv :=
  { chainHead := .ok 100
    pciOf := fun _ => .ok (some { Info := 0, PreCommitDeposit := 0, PreCommitEpoch := 0 })
    pledge := fun _ => .ok 5
    stateMinerInfo := .ok 0
    chainBaseFee := .ok 1
    stateNetworkVersion := .ok 13
    idFromAddress := .ok 1000
    aggregateSealProofs := fun _ _ _ _ => .ok [9]
    marshalAgg := fun bf pf => .ok (bf ++ pf)
    marshalSingle := fun sn pf => .ok (sn :: pf)
    feeForSectors := fun n => (n : Int)
    aggregateNetworkFee := fun _ _ _ => 2
    maxCommitGasFee := 1
    addrSel := fun _ _ _ => .ok 77
    sendMsg := fun _ _ _ _ => .ok 42 }

/-- Environment in which the collateral lookup fails for sector 7 only. -/
def envC1 : BatcherEnv :=
  { envOk with
    pciOf := fun sn =>
      if sn = 7 then .error "boom"
      else .ok (some { Info := 0, PreCommitDeposit := 0, PreCommitEpoch := 0 }) }

/-- State holding pending sectors `ns`, each with cutoff `cu` and one
listener. -/
def stateWith (ns : List Nat) (cu : Int) : BatcherState :=
  { cutoffs := ns.map (fun n => (n, cu))
    todo := ns.map (fun n => (n, inputOf n))
    waiting := ns.map (fun n => (n, 1)) }

/-- The minimum of the set (non-zero) values of `l`, `0` when every value is
unset.  This is the spec-side description of the scan of
commit_batch.go:142-154. -/
def minNonzero (l : List Int) : Int :=
  match l.filter (fun x => decide (x ≠ 0)) with
  | [] => 0
  | x :: xs => xs.foldl min x

/-- The cutoff values the `batchWait` scan ranges over: `b.cutoffs[sn]` for
`sn` in `todo` then in `waiting` (missing keys are the zero time). -/
def cutsOf (st : BatcherState) : List Int :=
  ((st.todo.map Prod.fst) ++ (st.waiting.map Prod.fst)).map (fun sn => lookupD st.cutoffs sn 0)

/-- Start epochs of the deals among the pieces of a sector, in order. -/
def dealStartEpochs (si : SectorInfo) : List Int :=
  si.Pieces.filterMap (fun p => p.DealInfo.map (fun d => d.DealSchedule.StartEpoch))

/-! Concrete fixtures used by the claim theorems. -/

def cfgMax4Min2 : Config :=
  { MaxCommitBatch := 4, MinCommitBatch := 2, CommitBatchWait := 30, CommitBatchSlack := 1 }

def cfgMax2Min5 : Config :=
  { MaxCommitBatch := 2, MinCommitBatch := 5, CommitBatchWait := 30, CommitBatchSlack := 1 }

def cfgMax10Min1 : Config :=
  { MaxCommitBatch := 10, MinCommitBatch := 1, CommitBatchWait := 30, CommitBatchSlack := 1 }

def cfgMax10Min5 : Config :=
  { MaxCommitBatch := 10, MinCommitBatch := 5, CommitBatchWait := 30, CommitBatchSlack := 1 }

def pciZero : SectorPreCommitOnChainInfo :=
  { Info := 0, PreCommitDeposit := 0, PreCommitEpoch := 0 }

def siOne : SectorInfo := { SectorNumber := 1, SectorType := 0, Pieces := [] }

/-- Selection outcome of the C5 counterexample run. -/
def accC5 : SelectAcc :=
  { sectors := [1, 2], failedSectors := none, bitfield := [1, 2]
    infos := [infoOf 1, infoOf 2], collateral := 10 }

/-- Selection outcome of the C5 witness run. -/
def accW5 : SelectAcc :=
  { sectors := [1, 2, 3, 4], failedSectors := none, bitfield := [1, 2, 3, 4]
    infos := [infoOf 1, infoOf 2, infoOf 3, infoOf 4], collateral := 20 }

/-- Selection outcome of the C7 witness run (sectors offered out of
order). -/
def accC7 : SelectAcc :=
  { sectors := [2, 1], failedSectors := none, bitfield := [2, 1]
    infos := [infoOf 2, infoOf 1], collateral := 10 }

/-! Helper lemmas about the association-list map model. -/

theorem lookupD_insertA {α : Type} (l : List (Nat × α)) (k : Nat) (v : α) (d : α) :
    lookupD (insertA l k v) k d = v := by
  induction l with
  | nil => simp [insertA, lookupD]
  | cons hd t ih =>
    obtain ⟨k', v'⟩ := hd
    by_cases h : k' = k
    · simp [insertA, h, lookupD]
    · simp [insertA, h, lookupD, ih]

theorem lookupD_of_mem {α : Type} {l : List (Nat × α)} (hnd : (l.map Prod.fst).Nodup)
    {k : Nat} {v : α} (hm : (k, v) ∈ l) (d : α) : lookupD l k d = v := by
  induction l with
  | nil => cases hm
  | cons hd t ih =>
    obtain ⟨k', v'⟩ := hd
    simp only [List.map_cons, List.nodup_cons] at hnd
    rcases List.mem_cons.mp hm with h | h
    · cases h
      simp [lookupD]
    · have hk : ¬k' = k := by
        intro he
        subst he
        exact hnd.1 (List.mem_map.mpr ⟨(k', v), h, rfl⟩)
      simp [lookupD, hk]
      exact ih hnd.2 h

/-! Helper lemmas about the sort of the aggregate path. -/

theorem mem_insertSorted (i x : AggregateSealVerifyInfo) (l : List AggregateSealVerifyInfo) :
    x ∈ insertSorted i l ↔ x = i ∨ x ∈ l := by
  induction l with
  | nil => simp [insertSorted]
  | cons j t ih =>
    by_cases h : i.Number ≤ j.Number
    · simp only [insertSorted, if_pos h, List.mem_cons]
    · simp only [insertSorted, if_neg h, List.mem_cons, ih]
      tauto

theorem pairwise_insertSorted (i : AggregateSealVerifyInfo) (l : List AggregateSealVerifyInfo)
    (hl : l.Pairwise (fun a b => a.Number ≤ b.Number)) :
    (insertSorted i l).Pairwise (fun a b => a.Number ≤ b.Number) := by
  induction l with
  | nil => simp [insertSorted]
  | cons j t ih =>
    rcases List.pairwise_cons.mp hl with ⟨hj, ht⟩
    by_cases h : i.Number ≤ j.Number
    · simp only [insertSorted, if_pos h]
      refine List.pairwise_cons.mpr ⟨?_, hl⟩
      intro x hx
      rcases List.mem_cons.mp hx with rfl | hx
      · exact h
      · exact le_trans h (hj x hx)
    · simp only [insertSorted, if_neg h]
      refine List.pairwise_cons.mpr ⟨?_, ih ht⟩
      intro x hx
      rcases (mem_insertSorted i x t).mp hx with rfl | hx
      · omega
      · exact hj x hx

theorem sortInfos_pairwise (l : List AggregateSealVerifyInfo) :
    (sortInfos l).Pairwise (fun a b => a.Number ≤ b.Number) := by
  induction l with
  | nil => simp [sortInfos]
  | cons i t ih => exact pairwise_insertSorted i (sortInfos t) ih

theorem mem_sortInfos {x : AggregateSealVerifyInfo} {l : List AggregateSealVerifyInfo} :
    x ∈ sortInfos l ↔ x ∈ l := by
  induction l with
  | nil => simp [sortInfos]
  | cons i t ih =>
    simp only [sortInfos, mem_insertSorted, ih, List.mem_cons]

/-! Helper lemmas about the selection loop of the aggregate path. -/

theorem selectLoop_infos_origin (getColl : Nat → Except String Int) (maxB : Nat)
    (todo : List (Nat × AggregateInput)) :
    ∀ (acc acc' : SelectAcc), selectLoop getColl maxB todo acc = .ret acc' →
      ∀ i ∈ acc'.infos, i ∈ acc.infos ∨ ∃ sn inp, (sn, inp) ∈ todo ∧ inp.info = i := by
  induction todo with
  | nil =>
    intro acc acc' h i hi
    cases h
    exact Or.inl hi
  | cons hd rest ih =>
    obtain ⟨id, p⟩ := hd
    intro acc acc' h i hi
    simp only [selectLoop] at h
    by_cases hb : maxB ≤ acc.infos.length
    · rw [if_pos hb] at h
      cases h
      exact Or.inl hi
    · rw [if_neg hb] at h
      cases hgc : getColl id with
      | error e =>
        cases hfs : acc.failedSectors with
        | none => rw [hgc, hfs] at h; cases h
        | some m =>
          rw [hgc, hfs] at h
          rcases ih _ _ h i hi with h1 | ⟨sn, inp, hmem, hinfo⟩
          · exact Or.inl h1
          · exact Or.inr ⟨sn, inp, List.mem_cons_of_mem _ hmem, hinfo⟩
      | ok sc =>
        rw [hgc] at h
        have h' : selectLoop getColl maxB rest
            { acc with
              sectors := acc.sectors ++ [id]
              collateral := acc.collateral + sc
              bitfield := bitfieldSet acc.bitfield id
              infos := acc.infos ++ [p.info] } = .ret acc' := by
          cases hfs : acc.failedSectors with
          | none => rw [hfs] at h; exact h
          | some m => rw [hfs] at h; exact h
        rcases ih _ _ h' i hi with h1 | ⟨sn, inp, hmem, hinfo⟩
        · rcases List.mem_append.mp h1 with h2 | h2
          · exact Or.inl h2
          · have : i = p.info := by simpa using h2
            exact Or.inr ⟨id, p, List.mem_cons_self _ _, this.symm⟩
        · exact Or.inr ⟨sn, inp, List.mem_cons_of_mem _ hmem, hinfo⟩

theorem selectLoop_ret_counts (getColl : Nat → Except String Int) (maxB : Nat)
    (todo : List (Nat × AggregateInput)) :
    ∀ (acc acc' : SelectAcc), selectLoop getColl maxB todo acc = .ret acc' →
      acc.failedSectors = none →
      (todo.map Prod.fst).Nodup →
      (∀ p ∈ todo, Prod.fst p ∉ acc.bitfield) →
      acc.bitfield.length = acc.infos.length →
      acc'.infos.length = (if maxB ≤ acc.infos.length then acc.infos.length
                           else min (acc.infos.length + todo.length) maxB)
      ∧ acc'.bitfield.length = acc'.infos.length := by
  induction todo with
  | nil =>
    intro acc acc' h _hfs _hnd _hfresh hlen
    cases h
    constructor
    · simp only [List.length_nil, Nat.add_zero]
      split <;> omega
    · exact hlen
  | cons hd rest ih =>
    obtain ⟨id, p⟩ := hd
    intro acc acc' h hfs hnd hfresh hlen
    simp only [selectLoop] at h
    by_cases hb : maxB ≤ acc.infos.length
    · rw [if_pos hb] at h
      cases h
      exact ⟨by rw [if_pos hb], hlen⟩
    · rw [if_neg hb] at h
      cases hgc : getColl id with
      | error e => rw [hgc, hfs] at h; cases h
      | ok sc =>
        rw [hgc, hfs] at h
        have hid : id ∉ acc.bitfield := hfresh (id, p) (List.mem_cons_self _ _)
        have hbf : bitfieldSet acc.bitfield id = acc.bitfield ++ [id] := by
          simp [bitfieldSet, hid]
        simp only [List.map_cons, List.nodup_cons] at hnd
        have hfresh' : ∀ q ∈ rest, Prod.fst q ∉ bitfieldSet acc.bitfield id := by
          intro q hq
          rw [hbf]
          intro hmem
          rcases List.mem_append.mp hmem with h2 | h2
          · exact hfresh q (List.mem_cons_of_mem _ hq) h2
          · have : Prod.fst q = id := by simpa using h2
            exact hnd.1 (this ▸ List.mem_map.mpr ⟨q, hq, rfl⟩)
        have hlen' : (bitfieldSet acc.bitfield id).length = (acc.infos ++ [p.info]).length := by
          rw [hbf]
          simp [hlen]
        rcases ih _ _ h rfl hnd.2 hfresh' hlen' with ⟨h1, h2⟩
        refine ⟨?_, h2⟩
        simp only [List.length_append, List.length_cons, List.length_nil, Nat.add_zero,
          Nat.zero_add] at h1 ⊢
        rw [if_neg hb]
        split at h1 <;> omega

/-! The minimum-of-set-cutoffs characterisation of the `batchWait` scan. -/

theorem foldl_min_mem (xs : List Int) (x : Int) : xs.foldl min x ∈ x :: xs := by
  induction xs generalizing x with
  | nil => simp
  | cons y t ih =>
    rw [List.foldl_cons]
    rcases List.mem_cons.mp (ih (min x y)) with h | h
    · rcases min_choice x y with hc | hc
      · rw [h, hc]; exact List.mem_cons_self _ _
      · rw [h, hc]; exact List.mem_cons_of_mem _ (List.mem_cons_self _ _)
    · exact List.mem_cons_of_mem _ (List.mem_cons_of_mem _ h)

theorem filter_ne_cons (a : Int) (l : List Int) :
    (a :: l).filter (fun x => decide (x ≠ 0)) =
      if a = 0 then l.filter (fun x => decide (x ≠ 0))
      else a :: l.filter (fun x => decide (x ≠ 0)) := by
  rw [List.filter_cons]
  by_cases h : a = 0 <;> simp [h]

theorem minNonzero_eq_nil {l : List Int} (hf : l.filter (fun x => decide (x ≠ 0)) = []) :
    minNonzero l = 0 := by
  simp only [minNonzero]
  rw [hf]

theorem minNonzero_eq_cons {l : List Int} {x : Int} {xs : List Int}
    (hf : l.filter (fun x => decide (x ≠ 0)) = x :: xs) :
    minNonzero l = xs.foldl min x := by
  simp only [minNonzero]
  rw [hf]

theorem minNonzero_cons_zero (l : List Int) : minNonzero (0 :: l) = minNonzero l := by
  simp only [minNonzero]
  rw [filter_ne_cons, if_pos rfl]

theorem minNonzero_cons_cutStepV (a x : Int) (xs : List Int) :
    minNonzero (cutStepV a x :: xs) = minNonzero (a :: x :: xs) := by
  by_cases ha : a = 0
  · subst ha
    have h1 : cutStepV 0 x = x := by simp [cutStepV]
    rw [h1, minNonzero_cons_zero]
  · by_cases hx : x = 0
    · subst hx
      have h1 : cutStepV a 0 = a := by simp [cutStepV, ha]
      rw [h1]
      simp only [minNonzero]
      rw [filter_ne_cons (l := 0 :: xs), if_neg ha, filter_ne_cons (a := 0), if_pos rfl,
        filter_ne_cons (a := a) (l := xs), if_neg ha]
    · have hstep : cutStepV a x = min a x := by
        unfold cutStepV
        by_cases hlt : x < a
        · rw [if_pos (Or.inr ⟨hx, hlt⟩)]
          omega
        · have hn : ¬(a = 0 ∨ (¬x = 0 ∧ x < a)) := by
            intro hcon
            rcases hcon with h | ⟨_, h⟩
            · exact ha h
            · exact hlt h
          rw [if_neg hn]
          omega
      have hmin : ¬(min a x = 0) := by
        rcases min_choice a x with hc | hc <;> rw [hc] <;> assumption
      have hL : minNonzero (min a x :: xs) =
          (xs.filter (fun y => decide (y ≠ 0))).foldl min (min a x) :=
        minNonzero_eq_cons (by rw [filter_ne_cons, if_neg hmin])
      have hR : minNonzero (a :: x :: xs) =
          (x :: xs.filter (fun y => decide (y ≠ 0))).foldl min a :=
        minNonzero_eq_cons (by rw [filter_ne_cons, if_neg ha, filter_ne_cons, if_neg hx])
      rw [hstep, hL, hR, List.foldl_cons]

theorem foldl_cutStepV_eq (l : List Int) : ∀ a, l.foldl cutStepV a = minNonzero (a :: l) := by
  induction l with
  | nil =>
    intro a
    by_cases h : a = 0
    · subst h
      exact (minNonzero_eq_nil (by decide)).symm
    · exact (minNonzero_eq_cons (l := [a]) (by rw [filter_ne_cons, if_neg h])).symm
  | cons x xs ih =>
    intro a
    rw [List.foldl_cons, ih (cutStepV a x), minNonzero_cons_cutStepV]

theorem minNonzero_append (l1 l2 : List Int) :
    minNonzero (minNonzero l1 :: l2) = minNonzero (l1 ++ l2) := by
  cases hf : l1.filter (fun x => decide (x ≠ 0)) with
  | nil =>
    rw [minNonzero_eq_nil hf, minNonzero_cons_zero]
    simp only [minNonzero]
    rw [List.filter_append, hf, List.nil_append]
  | cons x xs =>
    have h1 : minNonzero l1 = xs.foldl min x := minNonzero_eq_cons hf
    have hall : ∀ y ∈ x :: xs, ¬(y = 0) := by
      intro y hy
      rw [← hf] at hy
      simpa using List.of_mem_filter hy
    have hnz : ¬(xs.foldl min x = 0) := hall _ (foldl_min_mem xs x)
    have hL : minNonzero (xs.foldl min x :: l2) =
        (l2.filter (fun y => decide (y ≠ 0))).foldl min (xs.foldl min x) :=
      minNonzero_eq_cons (by rw [filter_ne_cons, if_neg hnz])
    have hR : minNonzero (l1 ++ l2) =
        (xs ++ l2.filter (fun y => decide (y ≠ 0))).foldl min x :=
      minNonzero_eq_cons (by rw [List.filter_append, hf, List.cons_append])
    rw [h1, hL, hR, List.foldl_append]

theorem minNonzero_eq_zero_iff (l : List Int) : minNonzero l = 0 ↔ ∀ x ∈ l, x = 0 := by
  constructor
  · intro h x hx
    by_contra hnx
    cases hf : l.filter (fun x => decide (x ≠ 0)) with
    | nil =>
      have := List.filter_eq_nil_iff.mp hf x hx
      simp at this
      exact hnx this
    | cons y ys =>
      have hm : minNonzero l = ys.foldl min y := minNonzero_eq_cons hf
      have hall : ∀ z ∈ y :: ys, ¬(z = 0) := by
        intro z hz
        rw [← hf] at hz
        simpa using List.of_mem_filter hz
      exact hall _ (foldl_min_mem ys y) (hm ▸ h)
  · intro h
    apply minNonzero_eq_nil
    apply List.filter_eq_nil_iff.mpr
    intro a ha
    simpa using h a ha

/-! The deal-start tightening of `getCommitCutoff` as a minimum. -/

theorem dealFold_eq (pieces : List SectorPiece) (base : Int) :
    pieces.foldl
      (fun ce p =>
        match p.DealInfo with
        | none => ce
        | some d => if d.DealSchedule.StartEpoch < ce then d.DealSchedule.StartEpoch else ce)
      base
    = (pieces.filterMap (fun p => p.DealInfo.map (fun d => d.DealSchedule.StartEpoch))).foldl
        min base := by
  induction pieces generalizing base with
  | nil => rfl
  | cons p t ih =>
    cases hd : p.DealInfo with
    | none => simp [List.filterMap_cons, hd, ih]
    | some d =>
      simp only [List.foldl_cons, List.filterMap_cons, hd, Option.map_some']
      have hstep : (if d.DealSchedule.StartEpoch < base then d.DealSchedule.StartEpoch else base)
          = min base d.DealSchedule.StartEpoch := by
        rw [Int.min_def]
        split_ifs <;> omega
      rw [hstep, ih]

/-! Claim theorems. -/

/-- Claim C1: contrary to the claim, a failed collateral lookup in the
aggregate path is not recorded in `result.failedSectors`: `FailedSectors`
is a nil map that was never initialised, so the recording write is a
runtime panic and batch close does not complete.  Concretely, with sectors
5, 6, 7, 8 pending and the pre-commit lookup failing only for sector 7,
`maybeStartBatch` takes the aggregate path and panics. -/
theorem C1_nilmap_panic :
    maybeStartBatch envC1 (.ok cfgMax4Min2) 4 (stateWith [5, 6, 7, 8] 10) true false =
      .panic "assignment to entry in nil map" := rfl

/-- Claim C2 counterexample: after a first `Stop` has returned ok, a second
`Stop` does not return ok; it panics closing the already-closed `stop`
channel. -/
theorem C2_counterexample :
    Stop { stopClosed := false, stoppedClosed := false } =
      .ret ({ stopClosed := true, stoppedClosed := true }, true) ∧
    Stop { stopClosed := true, stoppedClosed := true } =
      PanicOr.panic "close of closed channel" ∧
    PanicOr.panic "close of closed channel" ≠
      PanicOr.ret (({ stopClosed := true, stoppedClosed := true } : StopState), true) :=
  ⟨rfl, rfl, by decide⟩

/-- Claim C2 (amended): `Stop` is not idempotent.  The first call from a
not-yet-stopped batcher returns ok after the scheduler acknowledges, and
any call made after a completed `Stop` panics (`close` of a closed
channel). -/
theorem Stop_behavior (st : StopState) :
    (st.stopClosed = false → Stop st = .ret ({ stopClosed := true, stoppedClosed := true }, true)) ∧
    (∀ st2 ok2, Stop st = .ret (st2, ok2) → Stop st2 = .panic "close of closed channel") := by
  constructor
  · intro h
    simp [Stop, h, schedulerAckStop]
  · intro st2 ok2 h
    by_cases hc : st.stopClosed = true
    · simp [Stop, hc] at h
    · have hst : Stop st = .ret ({ stopClosed := true, stoppedClosed := true }, true) := by
        simp [Stop, hc, schedulerAckStop]
      rw [hst] at h
      injection h with h2
      injection h2 with h3 h4
      rw [← h3]
      rfl

/-- Witness for `Stop_behavior` at the initial channel state. -/
theorem C2_witness :
    Stop { stopClosed := false, stoppedClosed := false } =
      .ret ({ stopClosed := true, stoppedClosed := true }, true) ∧
    Stop { stopClosed := true, stoppedClosed := true } =
      PanicOr.panic "close of closed channel" := by
  have h := Stop_behavior { stopClosed := false, stoppedClosed := false }
  have h1 := h.1 rfl
  exact ⟨h1, h.2 { stopClosed := true, stoppedClosed := true } true h1⟩

/-- Claim C3 counterexample: holding the startup configuration fixed and
changing only the configuration read at close time changes the batch-close
decision, so a configuration change after startup does affect batch close.
With one pending sector and a timer wake-up, current `MinCommitBatch = 5`
yields an empty close while the startup value `1` would have submitted the
sector individually. -/
theorem C3_counterexample :
    (runIteration cfgMax10Min1 (.ok cfgMax10Min5) envOk 4 (stateWith [3] 100) 0 .timer).close =
      some (.ret (stateWith [3] 100, [], none)) ∧
    (runIteration cfgMax10Min1 (.ok cfgMax10Min1) envOk 4 (stateWith [3] 100) 0 .timer).close =
      some (.ret (emptyBatcherState,
        [{ Sectors := [3], FailedSectors := none, Msg := some 42, Error := "" }], none)) ∧
    cfgMax10Min1 ≠ cfgMax10Min5 :=
  ⟨rfl, rfl, by decide⟩

/-- Claim C3 (amended): in one scheduler iteration, the batch-close outcome
depends only on the configuration read at close time (not on the startup
configuration), while the armed timer depends only on the startup
configuration (not on the configuration that a close would read). -/
theorem runIteration_config_usage (c c' : Config) (g g' : Except String Config)
    (env : BatcherEnv) (minAgg : Nat) (st : BatcherState) (now : Int) (ev : WakeEvent) :
    (runIteration c g env minAgg st now ev).close =
      (runIteration c' g env minAgg st now ev).close ∧
    (runIteration c g env minAgg st now ev).timerDelay =
      (runIteration c g' env minAgg st now ev).timerDelay := by
  constructor
  · cases ev <;> rfl
  · rfl

/-- Claim C4 counterexample: a second `AddCommit` for the same sector
overwrites the stored cutoff, here increasing it from `10000000000` to
`10000000007` nanoseconds (the chain head is unchanged but `now` has
advanced by 7ns between the calls). -/
theorem C4_counterexample :
    addCommit (.ok 0) (.ok 0) (.ok (some pciZero)) (fun v => v) (fun _ _ => 10) 1 0
        emptyBatcherState siOne (inputOf 1) =
      .ok (addCommitRegister emptyBatcherState 1 10000000000 (inputOf 1)) ∧
    lookupD (addCommitRegister emptyBatcherState 1 10000000000 (inputOf 1)).cutoffs 1 0 =
      10000000000 ∧
    addCommit (.ok 0) (.ok 0) (.ok (some pciZero)) (fun v => v) (fun _ _ => 10) 1 7
        (addCommitRegister emptyBatcherState 1 10000000000 (inputOf 1)) siOne (inputOf 1) =
      .ok (addCommitRegister (addCommitRegister emptyBatcherState 1 10000000000 (inputOf 1)) 1
            10000000007 (inputOf 1)) ∧
    lookupD (addCommitRegister (addCommitRegister emptyBatcherState 1 10000000000 (inputOf 1)) 1
        10000000007 (inputOf 1)).cutoffs 1 0 = 10000000007 ∧
    (10000000000 : Int) < 10000000007 :=
  ⟨rfl, rfl, rfl, rfl, by decide⟩

/-- Claim C4 (amended): every successful `AddCommit` stores the freshly
computed cutoff for its sector: after the call, `cutoffs[s]` equals the
value `getCommitCutoff` just returned, regardless of any previously stored
(possibly smaller) cutoff. -/
theorem AddCommit_overwrites_cutoff (chainHead : Except String Int) (nvRes : Except String Nat)
    (pciRes : Except String (Option SectorPreCommitOnChainInfo)) (vfn : Nat → Nat)
    (mpcd : Nat → Nat → Int) (bds now : Int) (st : BatcherState) (si : SectorInfo)
    (inp : AggregateInput) (st' : BatcherState)
    (h : addCommit chainHead nvRes pciRes vfn mpcd bds now st si inp = .ok st') :
    getCommitCutoff chainHead nvRes pciRes vfn mpcd bds now si =
      .ok (lookupD st'.cutoffs si.SectorNumber 0) := by
  unfold addCommit at h
  cases hg : getCommitCutoff chainHead nvRes pciRes vfn mpcd bds now si with
  | error e => rw [hg] at h; cases h
  | panic m => rw [hg] at h; cases h
  | ok cu =>
    rw [hg] at h
    cases h
    simp only [addCommitRegister]
    rw [lookupD_insertA]

/-- Witness for `AddCommit_overwrites_cutoff` on a concrete re-add. -/
theorem C4_witness :
    getCommitCutoff (.ok 0) (.ok 0) (.ok (some pciZero)) (fun v => v) (fun _ _ => 10) 1 7
        siOne =
      .ok (lookupD (addCommitRegister (addCommitRegister emptyBatcherState 1 10000000000
          (inputOf 1)) 1 10000000007 (inputOf 1)).cutoffs 1 0) :=
  AddCommit_overwrites_cutoff (.ok 0) (.ok 0) (.ok (some pciZero))
    (fun v => v) (fun _ _ => 10) 1 7
    (addCommitRegister emptyBatcherState 1 10000000000 (inputOf 1))
    siOne (inputOf 1)
    (addCommitRegister (addCommitRegister emptyBatcherState 1 10000000000 (inputOf 1)) 1
      10000000007 (inputOf 1)) rfl

/-- Claim C5 counterexample: with `MaxCommitBatch = 2 < MinCommitBatch = 5`
and six pending sectors, the batcher submits an aggregate message (`Msg` is
set) that carries only 2 sectors, strictly fewer than
`max(MinCommitBatch, MinAggregatedSectors) = max 5 4`. -/
theorem C5_counterexample :
    maybeStartBatch envOk (.ok cfgMax2Min5) 4 (stateWith [1, 2, 3, 4, 5, 6] 10) true false =
      .ret (stateWith [3, 4, 5, 6] 10,
        [{ Sectors := [1, 2], FailedSectors := none, Msg := some 42, Error := "" }], none) ∧
    selectLoop (envGetColl envOk) cfgMax2Min5.MaxCommitBatch
        (stateWith [1, 2, 3, 4, 5, 6] 10).todo initSelectAcc = .ret accC5 ∧
    accC5.bitfield.length = 2 ∧
    accC5.bitfield.length < max cfgMax2Min5.MinCommitBatch 4 :=
  ⟨rfl, rfl, rfl, by decide⟩

/-- Claim C5 (amended): the sector-number bitfield assembled for the
aggregate message never exceeds `MaxCommitBatch` sectors, and it reaches at
least `max(MinCommitBatch, MinAggregatedSectors)` sectors provided the
pending set satisfies the aggregate-path gate (`|todo|` at or above both
minima) and `MaxCommitBatch` is itself at least both minima; completion of
the selection loop (`ret`, no panic) means no collateral lookup among the
selected sectors failed. -/
theorem processBatch_size_bounds (env : BatcherEnv) (cfg : Config) (minAgg : Nat)
    (todo : List (Nat × AggregateInput)) (acc' : SelectAcc)
    (hnd : (todo.map Prod.fst).Nodup)
    (hmin : cfg.MinCommitBatch ≤ todo.length) (hagg : minAgg ≤ todo.length)
    (hmaxmin : cfg.MinCommitBatch ≤ cfg.MaxCommitBatch)
    (hmaxagg : minAgg ≤ cfg.MaxCommitBatch)
    (hrun : selectLoop (envGetColl env) cfg.MaxCommitBatch todo initSelectAcc = .ret acc') :
    max cfg.MinCommitBatch minAgg ≤ acc'.bitfield.length ∧
    acc'.bitfield.length ≤ cfg.MaxCommitBatch := by
  rcases selectLoop_ret_counts (envGetColl env) cfg.MaxCommitBatch todo initSelectAcc acc'
      hrun rfl hnd (by intro p hp; simp [initSelectAcc]) rfl with ⟨h1, h2⟩
  simp only [initSelectAcc, List.length_nil, Nat.zero_add] at h1
  rw [h2, h1]
  split <;> omega

/-- Witness for `processBatch_size_bounds`: four pending sectors, all
collateral lookups succeed, `Max = MinAgg = 4`, `Min = 2`. -/
theorem C5_witness :
    max cfgMax4Min2.MinCommitBatch 4 ≤ accW5.bitfield.length ∧
    accW5.bitfield.length ≤ cfgMax4Min2.MaxCommitBatch :=
  processBatch_size_bounds envOk cfgMax4Min2 4 (stateWith [1, 2, 3, 4] 10).todo accW5
    (by decide) (by decide) (by decide) (by decide) (by decide) rfl

/-- Claim C6: the batch-close gate of `maybeStartBatch`.  With the pending
set empty the close returns empty; with the notification flag set and
`|todo| < MaxCommitBatch`, or the timer flag set and
`|todo| < MinCommitBatch`, it returns empty; otherwise it takes the
individual path exactly when `|todo| < MinCommitBatch` or
`|todo| < MinAggregatedSectors`, and the aggregate path otherwise. -/
theorem maybeStartBatch_gate (env : BatcherEnv) (cfg : Config) (minAgg : Nat)
    (st : BatcherState) (notif afterFlag : Bool) :
    (st.todo.length = 0 →
      maybeStartBatch env (.ok cfg) minAgg st notif afterFlag = .ret (st, [], none)) ∧
    (notif = true → st.todo.length < cfg.MaxCommitBatch →
      maybeStartBatch env (.ok cfg) minAgg st notif afterFlag = .ret (st, [], none)) ∧
    (afterFlag = true → st.todo.length < cfg.MinCommitBatch →
      maybeStartBatch env (.ok cfg) minAgg st notif afterFlag = .ret (st, [], none)) ∧
    (st.todo.length ≠ 0 →
     ¬(notif = true ∧ st.todo.length < cfg.MaxCommitBatch) →
     ¬(afterFlag = true ∧ st.todo.length < cfg.MinCommitBatch) →
      ((st.todo.length < cfg.MinCommitBatch ∨ st.todo.length < minAgg) →
        maybeStartBatch env (.ok cfg) minAgg st notif afterFlag =
          closeFinish st (processIndividually env st.todo)) ∧
      (¬(st.todo.length < cfg.MinCommitBatch ∨ st.todo.length < minAgg) →
        maybeStartBatch env (.ok cfg) minAgg st notif afterFlag =
          closeFinish st (processBatch env cfg st.todo))) := by
  refine ⟨?_, ?_, ?_, ?_⟩
  · intro h
    simp [maybeStartBatch, h]
  · intro hn hlt
    by_cases h0 : st.todo.length = 0
    · simp [maybeStartBatch, h0]
    · simp [maybeStartBatch, h0, hn, hlt]
  · intro ha hlt
    by_cases h0 : st.todo.length = 0
    · simp [maybeStartBatch, h0]
    · by_cases h2 : notif = true ∧ st.todo.length < cfg.MaxCommitBatch
      · simp [maybeStartBatch, h0, h2]
      · simp [maybeStartBatch, h0, h2, ha, hlt]
  · intro h0 h2 h3
    constructor
    · intro h4
      simp [maybeStartBatch, h0, h2, h3, h4]
    · intro h4
      simp [maybeStartBatch, h0, h2, h3, h4]

/-- Witness for `maybeStartBatch_gate`: the empty batcher closes empty. -/
theorem C6_witness :
    maybeStartBatch envOk (.ok cfgMax4Min2) 4 emptyBatcherState true false =
      .ret (emptyBatcherState, [], none) :=
  (maybeStartBatch_gate envOk cfgMax4Min2 4 emptyBatcherState true false).1 rfl

/-- Claim C7: in the aggregate path the infos vector handed to the prover is
sorted ascending by sector number, and the proof vector is assembled in
that same order: the k-th proof is the proof of the todo entry whose info
is the k-th sorted info.  Hypotheses: the map keys are distinct (Go maps)
and each entry's info carries its own sector number as the sealing pipeline
guarantees. -/
theorem processBatch_sorted (env : BatcherEnv) (maxB : Nat)
    (todo : List (Nat × AggregateInput)) (acc' : SelectAcc)
    (hnd : (todo.map Prod.fst).Nodup)
    (hkey : ∀ p ∈ todo, (Prod.snd p).info.Number = Prod.fst p)
    (hrun : selectLoop (envGetColl env) maxB todo initSelectAcc = .ret acc') :
    (sortInfos acc'.infos).Pairwise (fun a b => a.Number ≤ b.Number) ∧
    ∀ (k : Nat) (i : AggregateSealVerifyInfo), (sortInfos acc'.infos)[k]? = some i →
      ∃ inp, (i.Number, inp) ∈ todo ∧ inp.info = i ∧
        (proofsFor todo (sortInfos acc'.infos))[k]? = some inp.proof := by
  refine ⟨sortInfos_pairwise _, ?_⟩
  intro k i hk
  have hi : i ∈ sortInfos acc'.infos := by
    have := List.getElem?_mem hk
    exact this
  have hi' : i ∈ acc'.infos := mem_sortInfos.mp hi
  rcases selectLoop_infos_origin (envGetColl env) maxB todo initSelectAcc acc' hrun i hi' with
    h | ⟨sn, inp, hmem, hinfo⟩
  · simp [initSelectAcc] at h
  · have hsn : sn = i.Number := by
      rw [← hinfo]
      exact (hkey (sn, inp) hmem).symm
    subst hsn
    refine ⟨inp, hmem, hinfo, ?_⟩
    simp only [proofsFor, List.getElem?_map, hk, Option.map_some']
    rw [lookupD_of_mem hnd hmem]

/-- Witness for `processBatch_sorted`: sectors added in the order 2, 1 are
sorted to 1, 2 and the first proof is sector 1's proof. -/
theorem C7_witness :
    (sortInfos accC7.infos).Pairwise (fun a b => a.Number ≤ b.Number) ∧
    (proofsFor [(2, inputOf 2), (1, inputOf 1)] (sortInfos accC7.infos))[0]? = some [1] := by
  have h := processBatch_sorted envOk 4 [(2, inputOf 2), (1, inputOf 1)] accC7
    (by decide) (by decide) rfl
  refine ⟨h.1, ?_⟩
  obtain ⟨inp, hmem, hinfo, hproof⟩ := h.2 0 (infoOf 1) rfl
  have hinp : inp = inputOf 1 := by
    simp only [infoOf] at hmem
    rcases List.mem_cons.mp hmem with h1 | h1
    · have h12 : (1 : Nat) = 2 := congrArg Prod.fst h1
      exact absurd h12 (by decide)
    · rcases List.mem_cons.mp h1 with h2 | h2
      · exact congrArg Prod.snd h2
      · cases h2
  rw [hinp] at hproof
  exact hproof

/-- Claim C8: with the chain queries succeeding and the pre-commit record
present, the deadline oracle computes the cutoff epoch as the pre-commit
epoch plus the maximum prove-commit duration for the network's actors
version and the sector's seal-proof type, takes the minimum with the start
epoch of every piece that has a deal, returns the current instant when that
epoch is at or before the current epoch, and otherwise returns now plus the
epoch difference times the block-delay constant (in nanoseconds). -/
theorem getCommitCutoff_spec (curEpoch : Int) (nv : Nat) (pci : SectorPreCommitOnChainInfo)
    (vfn : Nat → Nat) (mpcd : Nat → Nat → Int) (bds now : Int) (si : SectorInfo) :
    getCommitCutoff (.ok curEpoch) (.ok nv) (.ok (some pci)) vfn mpcd bds now si =
      (if (dealStartEpochs si).foldl min
            (pci.PreCommitEpoch + mpcd (vfn nv) si.SectorType) ≤ curEpoch
       then GoRes.ok now
       else GoRes.ok (now +
         ((dealStartEpochs si).foldl min (pci.PreCommitEpoch + mpcd (vfn nv) si.SectorType)
             - curEpoch) * bds * 1000000000)) := by
  simp only [getCommitCutoff, dealStartEpochs]
  rw [dealFold_eq]

/-- Claim C9: the timer gate returns no timer exactly when `todo` is empty;
otherwise it fires after `maxWait` when every cutoff over `todo` and
`waiting` is unset (zero), and else at the earliest set cutoff minus
`slack`, capped at `maxWait` from now, with a target in the past rounded up
to one nanosecond (never zero).  The last conjunct identifies "minimum
cutoff unset" with "all cutoffs zero". -/
theorem batchWait_spec (st : BatcherState) (now maxWait slack : Int) :
    (st.todo = [] → batchWait st now maxWait slack = none) ∧
    (st.todo ≠ [] → batchWait st now maxWait slack = some (
      if minNonzero (cutsOf st) = 0 then maxWait
      else if minNonzero (cutsOf st) - slack < now then 1
      else min (minNonzero (cutsOf st) - slack - now) maxWait)) ∧
    (minNonzero (cutsOf st) = 0 ↔ ∀ x ∈ cutsOf st, x = 0) := by
  refine ⟨?_, ?_, minNonzero_eq_zero_iff _⟩
  · intro h
    simp [batchWait, h]
  · intro h
    have hlen : ¬(st.todo.length = 0) := by
      simpa [List.length_eq_zero] using h
    have e1 : ∀ (keys : List Nat) (a : Int),
        keys.foldl (cutStep st.cutoffs) a =
          (keys.map (fun sn => lookupD st.cutoffs sn 0)).foldl cutStepV a := by
      intro keys a
      rw [List.foldl_map]
      rfl
    have hc : (st.waiting.map Prod.fst).foldl (cutStep st.cutoffs)
        ((st.todo.map Prod.fst).foldl (cutStep st.cutoffs) 0) = minNonzero (cutsOf st) := by
      rw [e1, e1, ← List.foldl_append, foldl_cutStepV_eq, minNonzero_cons_zero, cutsOf,
        List.map_append]
    simp only [batchWait, hlen, if_false]
    rw [hc]
    split_ifs with h1 h2 h3
    · rfl
    · rfl
    · congr 1
      rw [Int.min_def]
      split_ifs <;> omega
    · congr 1
      rw [Int.min_def]
      split_ifs <;> omega

/-- Witness for `batchWait_spec`: one pending sector with cutoff 100ns,
`now = 10`, `maxWait = 50`, `slack = 20` fires after
`min (100 - 20 - 10) 50 = 50`. -/
theorem C9_witness :
    (stateWith [1] 100).todo ≠ [] ∧
    batchWait (stateWith [1] 100) 10 50 20 = some (
      if minNonzero (cutsOf (stateWith [1] 100)) = 0 then 50
      else if minNonzero (cutsOf (stateWith [1] 100)) - 20 < 10 then 1
      else min (minNonzero (cutsOf (stateWith [1] 100)) - 20 - 10) 50) :=
  ⟨by decide, (batchWait_spec (stateWith [1] 100) 10 50 20).2.1 (by decide)⟩

/-- Claim C10 (implicit): when the chain node returns a null pre-commit
record without an error, the deadline computation of `AddCommit`
dereferences the null record (`pci.PreCommitEpoch`) and panics rather than
returning an error, while the collateral oracle checks the same case and
returns the error "precommit info not found on chain"; so the deadline
computation is not total over the interface's declared result type. -/
theorem getCommitCutoff_nil_deref (curEpoch : Int) (nv : Nat) (vfn : Nat → Nat)
    (mpcd : Nat → Nat → Int) (bds now : Int) (si : SectorInfo)
    (pledge : Nat → Except String Int) (st : BatcherState) (inp : AggregateInput) :
    getCommitCutoff (.ok curEpoch) (.ok nv) (.ok none) vfn mpcd bds now si =
      .panic "invalid memory address or nil pointer dereference" ∧
    addCommit (.ok curEpoch) (.ok nv) (.ok none) vfn mpcd bds now st si inp =
      .panic "invalid memory address or nil pointer dereference" ∧
    getSectorCollateral (.ok none) pledge = .error "precommit info not found on chain" :=
  ⟨rfl, rfl, rfl⟩

end Sealing
